import Mathlib

/-!
Verification of the skill-proficiency engine of `src/utils.py`
(`report_student_skill_analysis`, and the shared score pipeline also used by
`plot_student_proficiency_radar`).

Modelling conventions:
* A pandas `DataFrame` of student records is a `List StudentRow`; only the
  columns read by the functions under study are modelled.
* The wide weight table `lecture_df` is a `LectureTable`: the list of its skill
  column names (in column order) plus one `WeightRow` per table row, the
  weights aligned with `skills`.  `weightOf` is cell access `row[skill]`.
* Numeric columns are modelled by `ℚ` (exact arithmetic).  A float division
  `a / b` is `pdiv a b : Option ℚ`; `none` stands for the non-finite float
  result produced when `b = 0` (for the inputs arising here the numerator is
  then `0` as well, so `none` is precisely IEEE `NaN`, the value pandas
  produces for `0.0 / 0.0`).
* `Series.idxmax` / `Series.idxmin` (first index attaining the extremum,
  skipping `NaN`) are `idxmaxOpt` / `idxminOpt`; on an empty or all-`NaN`
  series pandas raises `ValueError`, modelled by the `none` result which the
  report function turns into the `ReportOut.pyError` outcome.
* `groupby(k)[c].sum()` sorts the group keys ascending; `sortedDedup` builds
  that sorted list of distinct keys.
-/

/-- One row of `student_df`, restricted to the columns the analysed functions
read: `student_name`, `lecture`, `chapter`, `exam1`, `exam2`, `progress`. -/
structure StudentRow where
  student_name : String
  lecture : Int
  chapter : Int
  exam1 : ℚ
  exam2 : ℚ
  progress : ℚ
deriving DecidableEq

/-- One row of the wide `lecture_df`: the `lecture`/`chapter` keys and the
weight cells, aligned with the skill column list of the table. -/
structure WeightRow where
  lecture : Int
  chapter : Int
  weights : List ℚ
deriving DecidableEq

/-- The wide `lecture_df`: skill column names (dataframe columns are unique)
and the data rows. -/
structure LectureTable where
  skills : List String
  rows : List WeightRow
deriving DecidableEq

/-- The derived column `exam_avg = (exam1 + exam2) / 2` (utils.py:236 and utils.py:141). -/
def exam_avg (r : StudentRow) : ℚ := (r.exam1 + r.exam2) / 2

/-- Cell access `row[skill]` in the wide weight table: the weight stored in
the column named `s`. -/
def weightOf (lt : LectureTable) (s : String) (w : WeightRow) : ℚ :=
  w.weights.getD (lt.skills.indexOf s) 0

/-- One row of `lecture_df.melt(id_vars=["lecture","chapter"], var_name="skill",
value_name="weight")` (utils.py:244). -/
structure MeltRow where
  lecture : Int
  chapter : Int
  skill : String
  weight : ℚ
deriving DecidableEq

/-- Melt: one long-form row per (skill column, table row), value columns
taken in column order, and for each value column all rows in row order. -/
def meltWeights (lt : LectureTable) : List MeltRow :=
  lt.skills.flatMap fun s =>
    lt.rows.map fun w => ⟨w.lecture, w.chapter, s, weightOf lt s w⟩

/-- The filter `student_df[student_df["student_name"] == student_name]` (utils.py:231). -/
def stuFilter (sdf : List StudentRow) (name : String) : List StudentRow :=
  sdf.filter fun r => r.student_name = name

/-- One row of the inner-join result `merged` (utils.py:246). -/
structure MergedRow where
  lecture : Int
  chapter : Int
  exam_avg : ℚ
  skill : String
  weight : ℚ
deriving DecidableEq

/-- The join `pd.merge(stu_df[["lecture","chapter","exam_avg"]], melted_lecture,
on=["lecture","chapter"], how="inner")` (utils.py:246): for each left row in
order, the matching right rows in order. -/
def mergeStudent (sdf : List StudentRow) (lt : LectureTable) (name : String) :
    List MergedRow :=
  (stuFilter sdf name).flatMap fun r =>
    (meltWeights lt).filterMap fun m =>
      if m.lecture = r.lecture ∧ m.chapter = r.chapter then
        some ⟨r.lecture, r.chapter, exam_avg r, m.skill, m.weight⟩
      else none

/-- Sorted list of the distinct keys of a string column, as produced by a
pandas `groupby` (keys sorted ascending, one group per distinct key). -/
def sortedDedup (l : List String) : List String :=
  List.insertionSort (· ≤ ·) l.dedup

/-- The grouped sum of `weighted_score = exam_avg * weight` for one skill
group (utils.py:250,253). -/
def groupRaw (sdf : List StudentRow) (lt : LectureTable) (name : String)
    (k : String) : ℚ :=
  (((mergeStudent sdf lt name).filter fun m => m.skill = k).map
    fun m => m.exam_avg * m.weight).sum

/-- The grouped sum of `weight` for one skill group (utils.py:254). -/
def groupWeight (lt : LectureTable) (k : String) : ℚ :=
  (((meltWeights lt).filter fun m => m.skill = k).map MeltRow.weight).sum

/-- The table `merged.groupby("skill")["weighted_score"].sum()` where
`weighted_score = exam_avg * weight` (utils.py:250,253). -/
def skillScoreTable (sdf : List StudentRow) (lt : LectureTable) (name : String) :
    List (String × ℚ) :=
  (sortedDedup ((mergeStudent sdf lt name).map MergedRow.skill)).map fun k =>
    (k, groupRaw sdf lt name k)

/-- The table `melted_lecture.groupby("skill")["weight"].sum()` (utils.py:254). -/
def skillMaxTable (lt : LectureTable) : List (String × ℚ) :=
  (sortedDedup ((meltWeights lt).map MeltRow.skill)).map fun k =>
    (k, groupWeight lt k)

/-- Float division: `none` models the non-finite float obtained on a zero
denominator (IEEE `NaN` when the numerator is `0`, which is the only case the
pipeline produces under the non-negative-weight data invariant). -/
def pdiv (a b : ℚ) : Option ℚ := if b = 0 then none else some (a / b)

/-- First occurrence of the value `m` in a list of optional values. -/
def firstIdxSome (l : List (Option ℚ)) (m : ℚ) : Option Nat :=
  match l with
  | [] => none
  | o :: os => if o = some m then some 0 else (firstIdxSome os m).map (· + 1)

/-- Maximum of a rational list, `none` on the empty list. -/
def omax : List ℚ → Option ℚ
  | [] => none
  | q :: qs => some ((omax qs).elim q (max q))

/-- Minimum of a rational list, `none` on the empty list. -/
def omin : List ℚ → Option ℚ
  | [] => none
  | q :: qs => some ((omin qs).elim q (min q))

/-- Pandas `Series.idxmax` over a float column: skip `NaN`, return the first index
attaining the maximum; `none` models the `ValueError` pandas raises when the
series is empty or all-`NaN`. -/
def idxmaxOpt (l : List (Option ℚ)) : Option Nat :=
  match omax (l.filterMap id) with
  | none => none
  | some m => firstIdxSome l m

/-- Pandas `Series.idxmin`, analogously. -/
def idxminOpt (l : List (Option ℚ)) : Option Nat :=
  match omin (l.filterMap id) with
  | none => none
  | some m => firstIdxSome l m

/-- One row of the per-skill `result` table (utils.py:257-258): skill,
`raw_score`, `weight_sum`, `max_score = weight_sum * 100`, and
`normalized_score = raw_score / max_score * 100` as a float. -/
structure SkillRow where
  skill : String
  raw_score : ℚ
  weight_sum : ℚ
  max_score : ℚ
  normalized_score : Option ℚ
deriving DecidableEq

/-- First value stored under key `s` in an association list (the unique-key
join `pd.merge(skill_score, skill_max, on="skill")` reads the right table by
key). -/
def lookupQ (s : String) : List (String × ℚ) → Option ℚ
  | [] => none
  | p :: ps => if p.1 = s then some p.2 else lookupQ s ps

/-- The shared score pipeline of utils.py:141-161 and utils.py:236-258
(`compute_skill_scores` in the specification): exam averages, melt, inner
join, per-skill grouped sums, and normalization.  The result rows follow the
left (`skill_score`) key order, which is ascending by skill. -/
def compute_skill_scores (sdf : List StudentRow) (lt : LectureTable)
    (name : String) : List SkillRow :=
  (skillScoreTable sdf lt name).filterMap fun p =>
    (lookupQ p.1 (skillMaxTable lt)).map fun ws =>
      ⟨p.1, p.2, ws, ws * 100, (pdiv p.2 (ws * 100)).map (· * 100)⟩

/-- Round half to even, as Python's `round` does on the exact value. -/
def roundHalfEven (q : ℚ) : Int :=
  let f := ⌊q⌋
  let r := q - f
  if r < 1 / 2 then f
  else if r > 1 / 2 then f + 1
  else if f % 2 = 0 then f else f + 1

/-- Python `round(x, 2)`. -/
def round2 (q : ℚ) : ℚ := (roundHalfEven (q * 100) : ℚ) / 100

/-- The value `progress_percent = round((stu_df["progress"].sum() / lecture_df.shape[0])
* 100, 2)` (utils.py:239-241,277). -/
def progressPercent (sdf : List StudentRow) (lt : LectureTable) (name : String) :
    Option ℚ :=
  (pdiv ((stuFilter sdf name).map StudentRow.progress).sum
      (lt.rows.length : ℚ)).map fun x => round2 (x * 100)

/-- The worst skill's weight column `lecture_df[worst_skill]` (utils.py:266). -/
def wcol (lt : LectureTable) (s : String) : List ℚ :=
  lt.rows.map (weightOf lt s)

/-- The dictionary returned by `report_student_skill_analysis`
(utils.py:273-278). -/
structure Report where
  best_skill : String
  best_normalized_score : Option ℚ
  worst_skill : String
  worst_normalized_score : Option ℚ
  worst_chapter_lecture : Int
  worst_chapter_chapter : Int
  worst_chapter_weight : ℚ
  progress_percent : Option ℚ
deriving DecidableEq

/-- Outcome of a call to `report_student_skill_analysis`: the early-returned
"no data" message (utils.py:233), a normal dictionary result, or an uncaught
Python exception (`ValueError` from `idxmax`/`idxmin` on an empty or all-`NaN`
series, or a `KeyError`). -/
inductive ReportOut where
  | noData (msg : String)
  | pyError
  | ok (r : Report)
deriving DecidableEq

/-- The function `report_student_skill_analysis(student_df, lecture_df, student_name)`
(utils.py:212-278). -/
def report_student_skill_analysis (sdf : List StudentRow) (lt : LectureTable)
    (name : String) : ReportOut :=
  if stuFilter sdf name = [] then
    .noData ("No data found for student " ++ name)
  else
    match idxmaxOpt ((compute_skill_scores sdf lt name).map SkillRow.normalized_score),
          idxminOpt ((compute_skill_scores sdf lt name).map SkillRow.normalized_score) with
    | some i, some j =>
      match (compute_skill_scores sdf lt name)[i]?,
            (compute_skill_scores sdf lt name)[j]? with
      | some best, some worst =>
        if worst.skill ∈ lt.skills then
          match idxmaxOpt ((wcol lt worst.skill).map some) with
          | some k =>
            match lt.rows[k]? with
            | some w =>
              .ok ⟨best.skill, best.normalized_score,
                   worst.skill, worst.normalized_score,
                   w.lecture, w.chapter, weightOf lt worst.skill w,
                   progressPercent sdf lt name⟩
            | none => .pyError
          | none => .pyError
        else .pyError
      | _, _ => .pyError
    | _, _ => .pyError

/-- The data content of `plot_student_proficiency_radar` (utils.py:124-209):
`none` when the student has no records (message printed, `None` returned),
otherwise the per-skill table sorted by skill (utils.py:164). -/
def plot_student_proficiency_radar (sdf : List StudentRow) (lt : LectureTable)
    (name : String) : Option (List SkillRow) :=
  if stuFilter sdf name = [] then none
  else some (List.insertionSort (fun a b => a.skill ≤ b.skill)
    (compute_skill_scores sdf lt name))

/-- A call to `report_student_skill_analysis` seen as a state transformer on
the caller's two tables: the function filters `student_df` into a fresh frame
and takes an explicit `.copy()` (utils.py:235) before adding the derived
`exam_avg` column, so neither argument table is ever written; the call returns
its result together with the caller's tables as they stand afterwards. -/
def report_student_skill_analysis_call (sdf : List StudentRow)
    (lt : LectureTable) (name : String) :
    ReportOut × List StudentRow × LectureTable :=
  (report_student_skill_analysis sdf lt name, sdf, lt)

/-! ### Specification-side definitions

These restate, in the specification's own words, what the per-skill table is
supposed to contain; the refinement theorem for C1 compares them with the
pipeline above. -/

/-- Whether the student's records and the weight table match on at least one
`(lecture, chapter)` pair. -/
def hasAnyMatch (sdf : List StudentRow) (lt : LectureTable) (name : String) :
    Bool :=
  (stuFilter sdf name).any fun r =>
    lt.rows.any fun w => w.lecture = r.lecture ∧ w.chapter = r.chapter

/-- Spec: "one row per skill column of `lecture_weights` that has at least one
`(lecture, chapter)` match with that student's records", in ascending skill
order.  (Every skill column has a long-form row for every chapter row, so a
skill column has a matching chapter exactly when the two tables match at
all.) -/
def spec_skill_list (sdf : List StudentRow) (lt : LectureTable) (name : String) :
    List String :=
  sortedDedup (lt.skills.filter fun _s => hasAnyMatch sdf lt name)

/-- Spec: "`raw_score` = sum over matched rows of `((exam1 + exam2) / 2 *
weight)`"; student rows whose `(lecture, chapter)` has no entry in
`lecture_weights` contribute nothing. -/
def spec_raw_score (sdf : List StudentRow) (lt : LectureTable) (name : String)
    (s : String) : ℚ :=
  ((stuFilter sdf name).map fun r =>
    ((lt.rows.filter fun w =>
        w.lecture = r.lecture ∧ w.chapter = r.chapter).map fun w =>
      exam_avg r * weightOf lt s w).sum).sum

/-- Spec: the sum of a skill's weight over all rows of `lecture_weights`
(so `max_score = spec_weight_sum * 100`). -/
def spec_weight_sum (lt : LectureTable) (s : String) : ℚ :=
  (lt.rows.map (weightOf lt s)).sum

/-! ### Concrete tables for the spec's worked scenario -/

/-- Student records of the spec's concrete scenario: "Alice" with
`(lecture=1, chapter=1, exam1=80, exam2=100)` and
`(lecture=1, chapter=2, exam1=60, exam2=60)` (progress `1/2` each). -/
def aliceRecords : List StudentRow :=
  [⟨"Alice", 1, 1, 80, 100, 1/2⟩, ⟨"Alice", 1, 2, 60, 60, 1/2⟩]

/-- Weight table of the spec's concrete scenario:
`(lecture=1, chapter=1, Dart=2, Widget=1)` and
`(lecture=1, chapter=2, Dart=1, Widget=3)`. -/
def demoWeights : LectureTable :=
  ⟨["Dart", "Widget"], [⟨1, 1, [2, 1]⟩, ⟨1, 2, [1, 3]⟩]⟩

/-- The dictionary the scenario's report call returns. -/
def demoReport : Report :=
  ⟨"Dart", some 80, "Widget", some (135 / 2), 1, 2, 3, some 50⟩

/-- A student with a perfect `exam_avg` of 100 on every weighted chapter. -/
def perfectRecords : List StudentRow :=
  [⟨"Zoe", 1, 1, 100, 100, 1⟩, ⟨"Zoe", 1, 2, 100, 100, 1⟩]

/-- A weight table whose second skill column is identically zero. -/
def zeroWeights : LectureTable :=
  ⟨["Dart", "Empty"], [⟨1, 1, [2, 0]⟩, ⟨1, 2, [1, 0]⟩]⟩

/-- A weight table none of whose `(lecture, chapter)` keys occurs in
`aliceRecords`. -/
def missWeights : LectureTable :=
  ⟨["Dart", "Widget"], [⟨2, 1, [2, 1]⟩]⟩

/-! ### General list lemmas -/

theorem filterMap_ite {α β : Type} (p : α → Prop) [DecidablePred p] (h : α → β)
    (l : List α) :
    (l.filterMap fun a => if p a then some (h a) else none)
      = (l.filter fun a => decide (p a)).map h := by
  induction l with
  | nil => rfl
  | cons a t ih =>
    by_cases hp : p a <;>
      simp [List.filterMap_cons, List.filter_cons, hp, ih]

theorem filterMap_congr_map {α β : Type} {l : List α} {F : α → Option β}
    {G : α → β} (h : ∀ a ∈ l, F a = some (G a)) : l.filterMap F = l.map G := by
  induction l with
  | nil => rfl
  | cons a t ih =>
    rw [List.filterMap_cons, h a (List.mem_cons_self a t), List.map_cons,
      ih fun a ha => h a (List.mem_cons_of_mem _ ha)]

theorem sum_map_add {α : Type} (l : List α) (f g : α → ℚ) :
    (l.map fun a => f a + g a).sum = (l.map f).sum + (l.map g).sum := by
  induction l with
  | nil => simp
  | cons a t ih => simp only [List.map_cons, List.sum_cons, ih]; ring

theorem sum_ite_filter {α : Type} (l : List α) (p : α → Prop) [DecidablePred p]
    (f : α → ℚ) :
    (l.map fun a => if p a then f a else 0).sum
      = ((l.filter fun a => decide (p a)).map f).sum := by
  induction l with
  | nil => rfl
  | cons a t ih =>
    by_cases hp : p a <;> simp [List.filter_cons, hp, ih]

theorem sum_map_flatMap {α β : Type} (l : List α) (F : α → List β) (g : β → ℚ) :
    ((l.flatMap F).map g).sum = (l.map fun a => ((F a).map g).sum).sum := by
  induction l with
  | nil => rfl
  | cons a t ih => simp [List.flatMap_cons, ih]

theorem sum_swap_filter {α β : Type} (A : List α) (B : List β)
    (p : α → β → Prop) [∀ a b, Decidable (p a b)] (f : α → β → ℚ) :
    (A.map fun a =>
      ((B.filter fun b => decide (p a b)).map fun b => f a b).sum).sum
      = (B.map fun b =>
          ((A.filter fun a => decide (p a b)).map fun a => f a b).sum).sum := by
  induction A with
  | nil => simp
  | cons a t ih =>
    have step : (B.map fun b =>
        (((a :: t).filter fun a2 => decide (p a2 b)).map fun a2 => f a2 b).sum)
        = B.map fun b => (if p a b then f a b else 0) +
            ((t.filter fun a2 => decide (p a2 b)).map fun a2 => f a2 b).sum := by
      apply List.map_congr_left
      intro b _
      by_cases hp : p a b <;> simp [List.filter_cons, hp]
    rw [step, sum_map_add, sum_ite_filter, ← ih]
    simp

theorem flatMap_single_key {β : Type} {l : List String} (hnd : l.Nodup)
    {k : String} (hk : k ∈ l) (F : String → List β)
    (hF : ∀ s ∈ l, s ≠ k → F s = []) : l.flatMap F = F k := by
  induction l with
  | nil => cases hk
  | cons a t ih =>
    rcases List.mem_cons.1 hk with rfl | hk2
    · have htail : t.flatMap F = [] := by
        apply List.flatMap_eq_nil_iff.2
        intro s hs
        exact hF s (List.mem_cons_of_mem _ hs)
          fun hsk => (List.nodup_cons.1 hnd).1 (hsk ▸ hs)
      simp [List.flatMap_cons, htail]
    · have ha : F a = [] := by
        apply hF a (List.mem_cons_self a t)
        rintro rfl
        exact (List.nodup_cons.1 hnd).1 hk2
      rw [List.flatMap_cons, ha, List.nil_append]
      exact ih (List.nodup_cons.1 hnd).2 hk2
        fun s hs => hF s (List.mem_cons_of_mem _ hs)

/-! ### Lemmas about `sortedDedup` -/

theorem mem_sortedDedup {l : List String} {a : String} :
    a ∈ sortedDedup l ↔ a ∈ l := by
  unfold sortedDedup
  rw [(List.perm_insertionSort _ _).mem_iff, List.mem_dedup]

theorem sortedDedup_nodup (l : List String) : (sortedDedup l).Nodup :=
  (List.perm_insertionSort _ _).nodup_iff.2 (List.nodup_dedup l)

theorem sortedDedup_sorted (l : List String) :
    List.Sorted (· ≤ ·) (sortedDedup l) :=
  List.sorted_insertionSort _ _

theorem sortedDedup_sorted_lt (l : List String) :
    List.Sorted (· < ·) (sortedDedup l) :=
  (sortedDedup_sorted l).lt_of_le (sortedDedup_nodup l)

theorem sortedDedup_congr {l₁ l₂ : List String}
    (h : ∀ a, a ∈ l₁ ↔ a ∈ l₂) : sortedDedup l₁ = sortedDedup l₂ := by
  refine List.eq_of_perm_of_sorted ?_ (sortedDedup_sorted l₁)
    (sortedDedup_sorted l₂)
  refine (List.perm_ext_iff_of_nodup (sortedDedup_nodup l₁)
    (sortedDedup_nodup l₂)).2 fun a => ?_
  rw [mem_sortedDedup, mem_sortedDedup]
  exact h a

/-! ### Lemmas about the melt/join/group pipeline -/

theorem mem_meltWeights {lt : LectureTable} {m : MeltRow} :
    m ∈ meltWeights lt ↔ ∃ s ∈ lt.skills, ∃ w ∈ lt.rows,
      m = ⟨w.lecture, w.chapter, s, weightOf lt s w⟩ := by
  simp only [meltWeights, List.mem_flatMap, List.mem_map]
  constructor
  · rintro ⟨s, hs, w, hw, rfl⟩
    exact ⟨s, hs, w, hw, rfl⟩
  · rintro ⟨s, hs, w, hw, rfl⟩
    exact ⟨s, hs, w, hw, rfl⟩

theorem mem_melt_skill {lt : LectureTable} {k : String} :
    k ∈ (meltWeights lt).map MeltRow.skill
      ↔ k ∈ lt.skills ∧ ∃ w, w ∈ lt.rows := by
  simp only [List.mem_map]
  constructor
  · rintro ⟨m, hm, rfl⟩
    rcases mem_meltWeights.1 hm with ⟨s, hs, w, hw, rfl⟩
    exact ⟨hs, w, hw⟩
  · rintro ⟨hk, w, hw⟩
    exact ⟨⟨w.lecture, w.chapter, k, weightOf lt k w⟩,
      mem_meltWeights.2 ⟨k, hk, w, hw, rfl⟩, rfl⟩

theorem mergeStudent_eq (sdf : List StudentRow) (lt : LectureTable)
    (name : String) :
    mergeStudent sdf lt name
      = (stuFilter sdf name).flatMap fun r =>
          ((meltWeights lt).filter fun m =>
            decide (m.lecture = r.lecture ∧ m.chapter = r.chapter)).map fun m =>
            (⟨r.lecture, r.chapter, exam_avg r, m.skill, m.weight⟩ :
              MergedRow) := by
  unfold mergeStudent
  congr 1
  funext r
  exact filterMap_ite
    (fun m : MeltRow => m.lecture = r.lecture ∧ m.chapter = r.chapter) _ _

theorem mem_merged_skill {sdf : List StudentRow} {lt : LectureTable}
    {name k : String} :
    k ∈ (mergeStudent sdf lt name).map MergedRow.skill
      ↔ k ∈ lt.skills ∧ ∃ r ∈ stuFilter sdf name, ∃ w ∈ lt.rows,
          w.lecture = r.lecture ∧ w.chapter = r.chapter := by
  rw [mergeStudent_eq]
  simp only [List.mem_map, List.mem_flatMap, List.mem_filter]
  constructor
  · rintro ⟨x, ⟨r, hr, m, ⟨hm, hmatch⟩, rfl⟩, rfl⟩
    rcases mem_meltWeights.1 hm with ⟨s, hs, w, hw, rfl⟩
    simp only [decide_eq_true_eq] at hmatch
    exact ⟨hs, r, hr, w, hw, hmatch⟩
  · rintro ⟨hk, r, hr, w, hw, h1, h2⟩
    exact ⟨⟨r.lecture, r.chapter, exam_avg r, k, weightOf lt k w⟩, ⟨r, hr,
      ⟨w.lecture, w.chapter, k, weightOf lt k w⟩,
      ⟨mem_meltWeights.2 ⟨k, hk, w, hw, rfl⟩, by simp [h1, h2]⟩, rfl⟩, rfl⟩

theorem meltWeights_filter_skill {lt : LectureTable} {k : String}
    (hnd : lt.skills.Nodup) (hk : k ∈ lt.skills) :
    ((meltWeights lt).filter fun m => m.skill = k)
      = lt.rows.map fun w => ⟨w.lecture, w.chapter, k, weightOf lt k w⟩ := by
  unfold meltWeights
  rw [List.filter_flatMap]
  have hF : ∀ s ∈ lt.skills, s ≠ k →
      ((lt.rows.map fun w =>
        (⟨w.lecture, w.chapter, s, weightOf lt s w⟩ : MeltRow)).filter
          fun m => m.skill = k) = [] := by
    intro s _ hsk
    rw [List.filter_map]
    have hc : ((fun m : MeltRow => decide (m.skill = k)) ∘ fun w : WeightRow =>
        (⟨w.lecture, w.chapter, s, weightOf lt s w⟩ : MeltRow))
        = fun _ => false := by
      funext w; simp [hsk]
    rw [hc, List.filter_false, List.map_nil]
  rw [flatMap_single_key hnd hk _ hF, List.filter_map]
  have hc : ((fun m : MeltRow => decide (m.skill = k)) ∘ fun w : WeightRow =>
      (⟨w.lecture, w.chapter, k, weightOf lt k w⟩ : MeltRow))
      = fun _ => true := by
    funext w; simp
  rw [hc, List.filter_true]

theorem groupWeight_eq {lt : LectureTable} {k : String}
    (hnd : lt.skills.Nodup) (hk : k ∈ lt.skills) :
    groupWeight lt k = spec_weight_sum lt k := by
  unfold groupWeight
  rw [meltWeights_filter_skill hnd hk, List.map_map]
  rfl

theorem groupRaw_eq {sdf : List StudentRow} {lt : LectureTable}
    {name k : String} (hnd : lt.skills.Nodup) (hk : k ∈ lt.skills) :
    groupRaw sdf lt name k = spec_raw_score sdf lt name k := by
  unfold groupRaw
  rw [mergeStudent_eq, List.filter_flatMap, sum_map_flatMap]
  unfold spec_raw_score
  apply congrArg List.sum
  apply List.map_congr_left
  intro r _
  rw [List.filter_map]
  have hc : ((fun m : MergedRow => decide (m.skill = k)) ∘ fun m : MeltRow =>
      (⟨r.lecture, r.chapter, exam_avg r, m.skill, m.weight⟩ : MergedRow))
      = fun m : MeltRow => decide (m.skill = k) := rfl
  rw [hc, List.filter_comm, meltWeights_filter_skill hnd hk, List.filter_map]
  rw [List.map_map, List.map_map]
  rfl

theorem lookupQ_map_keys (f : String → ℚ) {l : List String} {k : String}
    (hk : k ∈ l) : lookupQ k (l.map fun s => (s, f s)) = some (f k) := by
  induction l with
  | nil => cases hk
  | cons a t ih =>
    by_cases hak : a = k
    · subst hak
      simp [lookupQ]
    · rcases List.mem_cons.1 hk with rfl | hk2
      · exact absurd rfl hak
      · simp only [List.map_cons, lookupQ, hak, if_false]
        exact ih hk2

theorem compute_eq_code (sdf : List StudentRow) (lt : LectureTable)
    (name : String) :
    compute_skill_scores sdf lt name
      = (sortedDedup ((mergeStudent sdf lt name).map MergedRow.skill)).map
          fun k => ⟨k, groupRaw sdf lt name k, groupWeight lt k,
            groupWeight lt k * 100,
            (pdiv (groupRaw sdf lt name k) (groupWeight lt k * 100)).map
              (· * 100)⟩ := by
  unfold compute_skill_scores skillScoreTable
  rw [List.filterMap_map]
  apply filterMap_congr_map
  intro k hk
  have hk2 : k ∈ (meltWeights lt).map MeltRow.skill := by
    rcases mem_merged_skill.1 (mem_sortedDedup.1 hk) with ⟨hsk, r, hr, w, hw, _⟩
    exact mem_melt_skill.2 ⟨hsk, w, hw⟩
  have hlook : lookupQ k (skillMaxTable lt) = some (groupWeight lt k) := by
    unfold skillMaxTable
    exact lookupQ_map_keys _ (mem_sortedDedup.2 hk2)
  simp only [Function.comp_apply, hlook]
  rfl

theorem compute_eq_spec {sdf : List StudentRow} {lt : LectureTable}
    {name : String} (hnd : lt.skills.Nodup) :
    compute_skill_scores sdf lt name
      = (sortedDedup ((mergeStudent sdf lt name).map MergedRow.skill)).map
          fun k => ⟨k, spec_raw_score sdf lt name k, spec_weight_sum lt k,
            spec_weight_sum lt k * 100,
            (pdiv (spec_raw_score sdf lt name k)
              (spec_weight_sum lt k * 100)).map (· * 100)⟩ := by
  rw [compute_eq_code]
  apply List.map_congr_left
  intro k hk
  have hsk : k ∈ lt.skills := (mem_merged_skill.1 (mem_sortedDedup.1 hk)).1
  rw [groupRaw_eq hnd hsk, groupWeight_eq hnd hsk]

theorem compute_map_skill (sdf : List StudentRow) (lt : LectureTable)
    (name : String) :
    (compute_skill_scores sdf lt name).map SkillRow.skill
      = sortedDedup ((mergeStudent sdf lt name).map MergedRow.skill) := by
  rw [compute_eq_code, List.map_map]
  exact List.map_id _

/-! ### Lemmas about `idxmaxOpt` / `idxminOpt` -/

theorem omax_spec {L : List ℚ} {m : ℚ} (h : omax L = some m) :
    m ∈ L ∧ ∀ x ∈ L, x ≤ m := by
  induction L generalizing m with
  | nil => cases h
  | cons q qs ih =>
    cases hq : omax qs with
    | none =>
      have hqs : qs = [] := by
        cases qs with
        | nil => rfl
        | cons a t => cases hq
      subst hqs
      simp [omax] at h
      subst h
      simp
    | some m2 =>
      rw [omax, hq] at h
      simp only [Option.elim_some, Option.some_inj] at h
      subst h
      rcases ih hq with ⟨hmem, hle⟩
      constructor
      · rcases le_total q m2 with hle2 | hle2
        · exact List.mem_cons_of_mem _ (by rwa [max_eq_right hle2])
        · rw [max_eq_left hle2]; exact List.mem_cons_self _ _
      · intro x hx
        rcases List.mem_cons.1 hx with rfl | hx2
        · exact le_max_left _ _
        · exact le_trans (hle x hx2) (le_max_right _ _)

theorem omin_spec {L : List ℚ} {m : ℚ} (h : omin L = some m) :
    m ∈ L ∧ ∀ x ∈ L, m ≤ x := by
  induction L generalizing m with
  | nil => cases h
  | cons q qs ih =>
    cases hq : omin qs with
    | none =>
      have hqs : qs = [] := by
        cases qs with
        | nil => rfl
        | cons a t => cases hq
      subst hqs
      simp [omin] at h
      subst h
      simp
    | some m2 =>
      rw [omin, hq] at h
      simp only [Option.elim_some, Option.some_inj] at h
      subst h
      rcases ih hq with ⟨hmem, hle⟩
      constructor
      · rcases le_total q m2 with hle2 | hle2
        · rw [min_eq_left hle2]; exact List.mem_cons_self _ _
        · exact List.mem_cons_of_mem _ (by rwa [min_eq_right hle2])
      · intro x hx
        rcases List.mem_cons.1 hx with rfl | hx2
        · exact min_le_left _ _
        · exact le_trans (min_le_right _ _) (hle x hx2)

theorem firstIdxSome_spec {l : List (Option ℚ)} {m : ℚ} {i : Nat}
    (h : firstIdxSome l m = some i) :
    l[i]? = some (some m) ∧ ∀ j < i, l[j]? ≠ some (some m) := by
  induction l generalizing i with
  | nil => cases h
  | cons o os ih =>
    by_cases ho : o = some m
    · rw [firstIdxSome, if_pos ho] at h
      cases h
      subst ho
      exact ⟨by simp, fun j hj => absurd hj (Nat.not_lt_zero j)⟩
    · rw [firstIdxSome, if_neg ho] at h
      rcases Option.map_eq_some'.1 h with ⟨i2, hi2, rfl⟩
      rcases ih hi2 with ⟨hget, hfirst⟩
      refine ⟨by simpa using hget, fun j hj => ?_⟩
      cases j with
      | zero =>
        simp only [List.getElem?_cons_zero]
        intro hc
        exact ho (Option.some_inj.1 hc)
      | succ j2 =>
        simp only [List.getElem?_cons_succ]
        exact hfirst j2 (Nat.lt_of_succ_lt_succ hj)

theorem idxmaxOpt_spec {l : List (Option ℚ)} {i : Nat}
    (h : idxmaxOpt l = some i) :
    ∃ m, l[i]? = some (some m) ∧ (∀ o ∈ l, ∀ v, o = some v → v ≤ m) ∧
      ∀ j < i, l[j]? ≠ some (some m) := by
  unfold idxmaxOpt at h
  cases homax : omax (l.filterMap id) with
  | none => rw [homax] at h; cases h
  | some m =>
    rw [homax] at h
    rcases omax_spec homax with ⟨_, hle⟩
    rcases firstIdxSome_spec h with ⟨hget, hfirst⟩
    refine ⟨m, hget, fun o ho v hv => ?_, hfirst⟩
    apply hle
    rw [List.mem_filterMap]
    exact ⟨o, ho, by rw [hv]; rfl⟩

theorem idxminOpt_spec {l : List (Option ℚ)} {i : Nat}
    (h : idxminOpt l = some i) :
    ∃ m, l[i]? = some (some m) ∧ (∀ o ∈ l, ∀ v, o = some v → m ≤ v) ∧
      ∀ j < i, l[j]? ≠ some (some m) := by
  unfold idxminOpt at h
  cases homin : omin (l.filterMap id) with
  | none => rw [homin] at h; cases h
  | some m =>
    rw [homin] at h
    rcases omin_spec homin with ⟨_, hle⟩
    rcases firstIdxSome_spec h with ⟨hget, hfirst⟩
    refine ⟨m, hget, fun o ho v hv => ?_, hfirst⟩
    apply hle
    rw [List.mem_filterMap]
    exact ⟨o, ho, by rw [hv]; rfl⟩

/-! ### Inversion of a successful report call -/

theorem report_ok_inv {sdf : List StudentRow} {lt : LectureTable}
    {name : String} {rep : Report}
    (h : report_student_skill_analysis sdf lt name = .ok rep) :
    stuFilter sdf name ≠ [] ∧
    ∃ i j best worst k w,
      idxmaxOpt ((compute_skill_scores sdf lt name).map
        SkillRow.normalized_score) = some i ∧
      idxminOpt ((compute_skill_scores sdf lt name).map
        SkillRow.normalized_score) = some j ∧
      (compute_skill_scores sdf lt name)[i]? = some best ∧
      (compute_skill_scores sdf lt name)[j]? = some worst ∧
      worst.skill ∈ lt.skills ∧
      idxmaxOpt ((wcol lt worst.skill).map some) = some k ∧
      lt.rows[k]? = some w ∧
      rep = ⟨best.skill, best.normalized_score, worst.skill,
             worst.normalized_score, w.lecture, w.chapter,
             weightOf lt worst.skill w, progressPercent sdf lt name⟩ := by
  unfold report_student_skill_analysis at h
  split at h
  · cases h
  next hne =>
    refine ⟨hne, ?_⟩
    split at h
    next i j hmax hmin =>
      split at h
      next best worst hbest hworst =>
        split at h
        next hmem =>
          split at h
          next k hk =>
            split at h
            next w hw =>
              cases h
              exact ⟨i, j, best, worst, k, w, hmax, hmin, hbest, hworst,
                hmem, hk, hw, rfl⟩
            next => cases h
          next => cases h
        next => cases h
      next => cases h
    next => cases h

/-! ### Supporting facts -/

theorem ne_nil_of_getElem_some {α : Type} {l : List α} {k : Nat} {w : α}
    (h : l[k]? = some w) : l ≠ [] := by
  intro h0
  subst h0
  simp at h

theorem roundHalfEven_intCast (z : Int) : roundHalfEven ((z : ℚ)) = z := by
  unfold roundHalfEven
  rw [Int.floor_intCast]
  norm_num

theorem round2_50 : round2 50 = 50 := by
  have h : ((50 : ℚ)) * 100 = ((5000 : Int) : ℚ) := by norm_num
  unfold round2
  rw [h, roundHalfEven_intCast]
  norm_num

theorem progressPercent_eq {sdf : List StudentRow} {lt : LectureTable}
    {name : String} (h : lt.rows ≠ []) :
    progressPercent sdf lt name
      = some (round2 ((((stuFilter sdf name).map StudentRow.progress).sum
          / (lt.rows.length : ℚ)) * 100)) := by
  have hlen : (lt.rows.length : ℚ) ≠ 0 := by
    exact_mod_cast fun h0 => h (List.length_eq_zero.1 h0)
  unfold progressPercent pdiv
  rw [if_neg hlen]
  rfl

theorem merge_nil_of_no_match {sdf : List StudentRow} {lt : LectureTable}
    {name : String}
    (hnomatch : ∀ r ∈ stuFilter sdf name, ∀ w ∈ lt.rows,
      ¬(w.lecture = r.lecture ∧ w.chapter = r.chapter)) :
    mergeStudent sdf lt name = [] := by
  rw [mergeStudent_eq]
  apply List.flatMap_eq_nil_iff.2
  intro r hr
  rw [List.map_eq_nil_iff, List.filter_eq_nil_iff]
  intro m hm
  rcases mem_meltWeights.1 hm with ⟨s, _, w, hw, rfl⟩
  simp only [decide_eq_true_eq]
  exact hnomatch r hr w hw

theorem compute_nil_of_merge_nil {sdf : List StudentRow} {lt : LectureTable}
    {name : String} (h : mergeStudent sdf lt name = []) :
    compute_skill_scores sdf lt name = [] := by
  unfold compute_skill_scores skillScoreTable
  rw [h]
  rfl

/-! ### Evaluation of the spec's worked scenario -/

theorem demo_compute_eval :
    compute_skill_scores aliceRecords demoWeights "Alice"
      = [⟨"Dart", 240, 3, 300, some 80⟩,
         ⟨"Widget", 270, 4, 400, some (135 / 2)⟩] := by
  simp +decide [compute_skill_scores, skillScoreTable, skillMaxTable, groupRaw,
    groupWeight, mergeStudent, meltWeights, stuFilter, sortedDedup,
    aliceRecords, demoWeights, weightOf, exam_avg, lookupQ, pdiv,
    List.insertionSort, List.orderedInsert, List.filter_cons,
    List.filterMap_cons, List.indexOf, List.findIdx_cons]
  norm_num

theorem demo_report_eval :
    report_student_skill_analysis aliceRecords demoWeights "Alice"
      = .ok demoReport := by
  simp +decide [demoReport, report_student_skill_analysis, compute_skill_scores,
    skillScoreTable, skillMaxTable, groupRaw, groupWeight, mergeStudent,
    meltWeights, stuFilter, sortedDedup, aliceRecords, demoWeights, weightOf,
    exam_avg, lookupQ, pdiv, progressPercent, wcol, idxmaxOpt, idxminOpt,
    omax, omin, firstIdxSome, round2, roundHalfEven,
    List.insertionSort, List.orderedInsert, List.filter_cons,
    List.filterMap_cons, List.indexOf, List.findIdx_cons]
  norm_num +decide [max_def, min_def, omax, omin, firstIdxSome]

theorem spec_raw_swap (sdf : List StudentRow) (lt : LectureTable)
    (name s : String) :
    spec_raw_score sdf lt name s
      = (lt.rows.map fun w =>
          (((stuFilter sdf name).filter fun r =>
            w.lecture = r.lecture ∧ w.chapter = r.chapter).map fun r =>
            exam_avg r * weightOf lt s w).sum).sum := by
  unfold spec_raw_score
  exact sum_swap_filter (stuFilter sdf name) lt.rows
    (fun r w => w.lecture = r.lecture ∧ w.chapter = r.chapter)
    (fun r w => exam_avg r * weightOf lt s w)

/-! ### Claims -/

/-- C1: for every `student_name` matching at least one row of
`student_records`, the skill-score pipeline returns exactly one row per skill
column of `lecture_weights` that has at least one `(lecture, chapter)` match
with that student's records (listed in ascending skill order), and for each
such skill `raw_score` is the sum over matched rows of
`(exam1 + exam2) / 2 * weight`, `max_score` is the skill's total weight over
all weight rows times `100`, and `normalized_score` is
`raw_score / max_score * 100`; student rows with no weight entry contribute
nothing (inner-join semantics). -/
theorem C1_compute_skill_scores_refines_spec (sdf : List StudentRow)
    (lt : LectureTable) (name : String) (hnd : lt.skills.Nodup)
    (_hstu : stuFilter sdf name ≠ []) :
    (compute_skill_scores sdf lt name).map SkillRow.skill
      = spec_skill_list sdf lt name ∧
    ∀ row ∈ compute_skill_scores sdf lt name,
      row.raw_score = spec_raw_score sdf lt name row.skill ∧
      row.max_score = spec_weight_sum lt row.skill * 100 ∧
      (row.max_score ≠ 0 →
        row.normalized_score = some (row.raw_score / row.max_score * 100)) := by
  constructor
  · rw [compute_map_skill]
    apply sortedDedup_congr
    intro a
    rw [mem_merged_skill]
    simp only [spec_skill_list, List.mem_filter, hasAnyMatch,
      List.any_eq_true, decide_eq_true_eq]
  · intro row hrow
    rw [compute_eq_spec hnd] at hrow
    rcases List.mem_map.1 hrow with ⟨k, _, rfl⟩
    refine ⟨rfl, rfl, fun hmax => ?_⟩
    simp only [pdiv] at hmax ⊢
    rw [if_neg hmax]
    rfl

/-- Witness for C1 at the spec's worked scenario. -/
theorem C1_compute_skill_scores_refines_spec_witness :
    demoWeights.skills.Nodup ∧ stuFilter aliceRecords "Alice" ≠ [] ∧
    ((compute_skill_scores aliceRecords demoWeights "Alice").map SkillRow.skill
      = spec_skill_list aliceRecords demoWeights "Alice" ∧
    ∀ row ∈ compute_skill_scores aliceRecords demoWeights "Alice",
      row.raw_score = spec_raw_score aliceRecords demoWeights "Alice" row.skill ∧
      row.max_score = spec_weight_sum demoWeights row.skill * 100 ∧
      (row.max_score ≠ 0 →
        row.normalized_score = some (row.raw_score / row.max_score * 100))) :=
  ⟨by decide, by decide,
    C1_compute_skill_scores_refines_spec aliceRecords demoWeights "Alice"
      (by decide) (by decide)⟩

/-- C2: on the spec's concrete input (weight rows `(1,1,Dart=2,Widget=1)` and
`(1,2,Dart=1,Widget=3)`; Alice's records `(1,1,80,100)` and `(1,2,60,60)`)
the computation yields `exam_avg` 90 and 60, Dart `raw_score` 240 with
`max_score` 300 and `normalized_score` 80, Widget `raw_score` 270 with
`max_score` 400 and `normalized_score` 67.5, and the report selects
`best_skill` Dart and `worst_skill` Widget. -/
theorem C2_concrete_scenario :
    exam_avg ⟨"Alice", 1, 1, 80, 100, 1 / 2⟩ = 90 ∧
    exam_avg ⟨"Alice", 1, 2, 60, 60, 1 / 2⟩ = 60 ∧
    compute_skill_scores aliceRecords demoWeights "Alice"
      = [⟨"Dart", 240, 3, 300, some 80⟩,
         ⟨"Widget", 270, 4, 400, some (135 / 2)⟩] ∧
    (135 : ℚ) / 2 = 67.5 ∧
    report_student_skill_analysis aliceRecords demoWeights "Alice"
      = .ok demoReport ∧
    demoReport.best_skill = "Dart" ∧
    demoReport.best_normalized_score = some 80 ∧
    demoReport.worst_skill = "Widget" ∧
    demoReport.worst_normalized_score = some (135 / 2) :=
  ⟨by norm_num [exam_avg], by norm_num [exam_avg], demo_compute_eval,
    by norm_num, demo_report_eval, rfl, rfl, rfl, rfl⟩

/-- C3: whenever the report call returns a dictionary, `progress_percent` is
the student's summed `progress` divided by the number of rows of the weight
table (a chapter count, not a progress maximum), times 100, rounded to two
decimals; in particular when the summed progress is exactly half the row
count the reported value is exactly 50. -/
theorem C3_progress_percent (sdf : List StudentRow) (lt : LectureTable)
    (name : String) (rep : Report)
    (h : report_student_skill_analysis sdf lt name = .ok rep) :
    rep.progress_percent
      = some (round2 ((((stuFilter sdf name).map StudentRow.progress).sum
          / (lt.rows.length : ℚ)) * 100)) ∧
    (2 * ((stuFilter sdf name).map StudentRow.progress).sum
        = (lt.rows.length : ℚ) →
      rep.progress_percent = some 50) := by
  rcases report_ok_inv h with ⟨_, i, j, best, worst, k, w, _, _, _, _, _, _,
    hw, hrep⟩
  have hrows : lt.rows ≠ [] := ne_nil_of_getElem_some hw
  have hpp : rep.progress_percent = progressPercent sdf lt name := by
    rw [hrep]
  have hlen : (lt.rows.length : ℚ) ≠ 0 := by
    exact_mod_cast fun h0 => hrows (List.length_eq_zero.1 h0)
  constructor
  · rw [hpp, progressPercent_eq hrows]
  · intro h2
    have hS : (((stuFilter sdf name).map StudentRow.progress).sum
        / (lt.rows.length : ℚ)) * 100 = 50 := by
      rw [← h2]
      have hSne : ((stuFilter sdf name).map StudentRow.progress).sum ≠ 0 := by
        intro h0
        rw [h0, mul_zero] at h2
        exact hlen h2.symm
      field_simp
      ring
    rw [hpp, progressPercent_eq hrows, hS, round2_50]

/-- Witness for C3 at the spec's worked scenario. -/
theorem C3_progress_percent_witness :
    report_student_skill_analysis aliceRecords demoWeights "Alice"
      = .ok demoReport ∧
    (demoReport.progress_percent
      = some (round2 ((((stuFilter aliceRecords "Alice").map
          StudentRow.progress).sum / (demoWeights.rows.length : ℚ)) * 100)) ∧
    (2 * ((stuFilter aliceRecords "Alice").map StudentRow.progress).sum
        = (demoWeights.rows.length : ℚ) →
      demoReport.progress_percent = some 50)) :=
  ⟨demo_report_eval,
    C3_progress_percent aliceRecords demoWeights "Alice" demoReport
      demo_report_eval⟩

/-- C4: in the report, `best_skill` is the row of the per-skill table with the
maximal `normalized_score` and `worst_skill` the row with the minimal one; the
table is in ascending skill-name order and on ties the first occurrence in
that order is selected (rows before the selected index never attain the
extremum). -/
theorem C4_best_worst_selection (sdf : List StudentRow) (lt : LectureTable)
    (name : String) (rep : Report)
    (h : report_student_skill_analysis sdf lt name = .ok rep) :
    List.Sorted (· < ·)
      ((compute_skill_scores sdf lt name).map SkillRow.skill) ∧
    (∃ (i : Nat) (best : SkillRow),
      (compute_skill_scores sdf lt name)[i]? = some best ∧
      rep.best_skill = best.skill ∧
      rep.best_normalized_score = best.normalized_score ∧
      ∃ m, best.normalized_score = some m ∧
        (∀ row ∈ compute_skill_scores sdf lt name, ∀ v,
          row.normalized_score = some v → v ≤ m) ∧
        ∀ j < i, ∀ row, (compute_skill_scores sdf lt name)[j]? = some row →
          row.normalized_score ≠ some m) ∧
    (∃ (i : Nat) (worst : SkillRow),
      (compute_skill_scores sdf lt name)[i]? = some worst ∧
      rep.worst_skill = worst.skill ∧
      rep.worst_normalized_score = worst.normalized_score ∧
      ∃ m, worst.normalized_score = some m ∧
        (∀ row ∈ compute_skill_scores sdf lt name, ∀ v,
          row.normalized_score = some v → m ≤ v) ∧
        ∀ j < i, ∀ row, (compute_skill_scores sdf lt name)[j]? = some row →
          row.normalized_score ≠ some m) := by
  rcases report_ok_inv h with ⟨_, i, j, best, worst, k, w, hmax, hmin,
    hbest, hworst, _, _, _, hrep⟩
  refine ⟨?_, ?_, ?_⟩
  · rw [compute_map_skill]
    exact sortedDedup_sorted_lt _
  · rcases idxmaxOpt_spec hmax with ⟨m, hget, hle, hfirst⟩
    rw [List.getElem?_map, hbest, Option.map_some'] at hget
    refine ⟨i, best, hbest, by rw [hrep], by rw [hrep],
      m, Option.some_inj.1 hget, fun row hrow v hv => ?_, fun j2 hj2 row hrow => ?_⟩
    · exact hle (row.normalized_score) (List.mem_map_of_mem _ hrow) v hv
    · have := hfirst j2 hj2
      rw [List.getElem?_map, hrow, Option.map_some'] at this
      intro hc
      exact this (by rw [hc])
  · rcases idxminOpt_spec hmin with ⟨m, hget, hle, hfirst⟩
    rw [List.getElem?_map, hworst, Option.map_some'] at hget
    refine ⟨j, worst, hworst, by rw [hrep], by rw [hrep],
      m, Option.some_inj.1 hget, fun row hrow v hv => ?_, fun j2 hj2 row hrow => ?_⟩
    · exact hle (row.normalized_score) (List.mem_map_of_mem _ hrow) v hv
    · have := hfirst j2 hj2
      rw [List.getElem?_map, hrow, Option.map_some'] at this
      intro hc
      exact this (by rw [hc])

/-- Witness for C4 at the spec's worked scenario. -/
theorem C4_best_worst_selection_witness :
    report_student_skill_analysis aliceRecords demoWeights "Alice"
      = .ok demoReport ∧
    (List.Sorted (· < ·)
      ((compute_skill_scores aliceRecords demoWeights "Alice").map
        SkillRow.skill) ∧
    (∃ (i : Nat) (best : SkillRow),
      (compute_skill_scores aliceRecords demoWeights "Alice")[i]? = some best ∧
      demoReport.best_skill = best.skill ∧
      demoReport.best_normalized_score = best.normalized_score ∧
      ∃ m, best.normalized_score = some m ∧
        (∀ row ∈ compute_skill_scores aliceRecords demoWeights "Alice", ∀ v,
          row.normalized_score = some v → v ≤ m) ∧
        ∀ j < i, ∀ row,
          (compute_skill_scores aliceRecords demoWeights "Alice")[j]?
            = some row → row.normalized_score ≠ some m) ∧
    (∃ (i : Nat) (worst : SkillRow),
      (compute_skill_scores aliceRecords demoWeights "Alice")[i]? = some worst ∧
      demoReport.worst_skill = worst.skill ∧
      demoReport.worst_normalized_score = worst.normalized_score ∧
      ∃ m, worst.normalized_score = some m ∧
        (∀ row ∈ compute_skill_scores aliceRecords demoWeights "Alice", ∀ v,
          row.normalized_score = some v → m ≤ v) ∧
        ∀ j < i, ∀ row,
          (compute_skill_scores aliceRecords demoWeights "Alice")[j]?
            = some row → row.normalized_score ≠ some m)) :=
  ⟨demo_report_eval,
    C4_best_worst_selection aliceRecords demoWeights "Alice" demoReport
      demo_report_eval⟩

/-- C5: in the report, `most_weighted_chapter_for_worst_skill` is the weight
row whose cell in the worst skill's column is maximal, reported as that row's
`lecture`, `chapter` and cell value, and on ties the first row of the weight
table in original order is selected. -/
theorem C5_most_weighted_chapter (sdf : List StudentRow) (lt : LectureTable)
    (name : String) (rep : Report)
    (h : report_student_skill_analysis sdf lt name = .ok rep) :
    ∃ (k : Nat) (w : WeightRow), lt.rows[k]? = some w ∧
      rep.worst_chapter_lecture = w.lecture ∧
      rep.worst_chapter_chapter = w.chapter ∧
      rep.worst_chapter_weight = weightOf lt rep.worst_skill w ∧
      (∀ w2 ∈ lt.rows,
        weightOf lt rep.worst_skill w2 ≤ weightOf lt rep.worst_skill w) ∧
      ∀ j < k, ∀ w2, lt.rows[j]? = some w2 →
        weightOf lt rep.worst_skill w2 ≠ weightOf lt rep.worst_skill w := by
  rcases report_ok_inv h with ⟨_, i, j, best, worst, k, w, _, _, _, _, _,
    hk, hw, hrep⟩
  rcases idxmaxOpt_spec hk with ⟨m, hget, hle, hfirst⟩
  have hwcol : (wcol lt worst.skill)[k]? = some (weightOf lt worst.skill w) := by
    unfold wcol
    rw [List.getElem?_map, hw, Option.map_some']
  rw [List.getElem?_map, hwcol, Option.map_some'] at hget
  have hm : m = weightOf lt worst.skill w :=
    (Option.some_inj.1 (Option.some_inj.1 hget)).symm
  subst hm
  have hws : rep.worst_skill = worst.skill := by rw [hrep]
  refine ⟨k, w, hw, by rw [hrep], by rw [hrep], by rw [hrep], ?_, ?_⟩
  · intro w2 hw2
    rw [hws]
    exact hle (some (weightOf lt worst.skill w2))
      (List.mem_map_of_mem _ (List.mem_map_of_mem _ hw2)) _ rfl
  · intro j2 hj2 w2 hw2 hc
    have hne := hfirst j2 hj2
    rw [hws] at hc
    apply hne
    unfold wcol
    rw [List.getElem?_map, List.getElem?_map, hw2, Option.map_some',
      Option.map_some', hc]

/-- Witness for C5 at the spec's worked scenario. -/
theorem C5_most_weighted_chapter_witness :
    report_student_skill_analysis aliceRecords demoWeights "Alice"
      = .ok demoReport ∧
    (∃ (k : Nat) (w : WeightRow), demoWeights.rows[k]? = some w ∧
      demoReport.worst_chapter_lecture = w.lecture ∧
      demoReport.worst_chapter_chapter = w.chapter ∧
      demoReport.worst_chapter_weight
        = weightOf demoWeights demoReport.worst_skill w ∧
      (∀ w2 ∈ demoWeights.rows,
        weightOf demoWeights demoReport.worst_skill w2
          ≤ weightOf demoWeights demoReport.worst_skill w) ∧
      ∀ j < k, ∀ w2, demoWeights.rows[j]? = some w2 →
        weightOf demoWeights demoReport.worst_skill w2
          ≠ weightOf demoWeights demoReport.worst_skill w) :=
  ⟨demo_report_eval,
    C5_most_weighted_chapter aliceRecords demoWeights "Alice" demoReport
      demo_report_eval⟩

/-- C6: when `student_name` matches no record, the report call returns the
explicit "no data" message (rather than crashing or silently returning an
empty result), and the radar-chart function likewise returns its "no data"
outcome. -/
theorem C6_missing_student (sdf : List StudentRow) (lt : LectureTable)
    (name : String) (h : stuFilter sdf name = []) :
    report_student_skill_analysis sdf lt name
      = .noData ("No data found for student " ++ name) ∧
    plot_student_proficiency_radar sdf lt name = none := by
  constructor
  · unfold report_student_skill_analysis
    rw [if_pos h]
  · unfold plot_student_proficiency_radar
    rw [if_pos h]

/-- Witness for C6: "Bob" has no records. -/
theorem C6_missing_student_witness :
    stuFilter aliceRecords "Bob" = [] ∧
    (report_student_skill_analysis aliceRecords demoWeights "Bob"
      = .noData ("No data found for student " ++ "Bob") ∧
    plot_student_proficiency_radar aliceRecords demoWeights "Bob" = none) :=
  ⟨by decide, C6_missing_student aliceRecords demoWeights "Bob" (by decide)⟩

/-- C9: the report call has no side effect on its arguments: seen as a state
transformer on the caller's two tables, it returns them unchanged (the code
filters into a fresh frame and takes an explicit `.copy()` at utils.py:235
before adding the derived `exam_avg` column), and its result is exactly the
pure report value. -/
theorem C9_no_mutation (sdf : List StudentRow) (lt : LectureTable)
    (name : String) :
    (report_student_skill_analysis_call sdf lt name).2.1 = sdf ∧
    (report_student_skill_analysis_call sdf lt name).2.2 = lt ∧
    (report_student_skill_analysis_call sdf lt name).1
      = report_student_skill_analysis sdf lt name :=
  ⟨rfl, rfl, rfl⟩

/-- C10: when the student exists but none of their `(lecture, chapter)` pairs
occurs in the weight table, the inner join is empty and the report call ends
in the uncaught arg-max-of-empty-sequence exception rather than a report or a
"no data" message; the `NotFoundError` guard does not cover this case. -/
theorem C10_no_chapter_overlap (sdf : List StudentRow) (lt : LectureTable)
    (name : String) (hstu : stuFilter sdf name ≠ [])
    (hnomatch : ∀ r ∈ stuFilter sdf name, ∀ w ∈ lt.rows,
      ¬(w.lecture = r.lecture ∧ w.chapter = r.chapter)) :
    report_student_skill_analysis sdf lt name = .pyError := by
  have hc : compute_skill_scores sdf lt name = [] :=
    compute_nil_of_merge_nil (merge_nil_of_no_match hnomatch)
  unfold report_student_skill_analysis
  rw [if_neg hstu, hc]
  rfl

/-- Witness for C10: Alice's records never match the `missWeights` table. -/
theorem C10_no_chapter_overlap_witness :
    stuFilter aliceRecords "Alice" ≠ [] ∧
    (∀ r ∈ stuFilter aliceRecords "Alice", ∀ w ∈ missWeights.rows,
      ¬(w.lecture = r.lecture ∧ w.chapter = r.chapter)) ∧
    report_student_skill_analysis aliceRecords missWeights "Alice"
      = .pyError :=
  ⟨by decide, by decide,
    C10_no_chapter_overlap aliceRecords missWeights "Alice" (by decide)
      (by decide)⟩

theorem all_zero_of_sum_nonneg_zero {l : List ℚ} (h0 : ∀ x ∈ l, 0 ≤ x)
    (hs : l.sum = 0) : ∀ x ∈ l, x = 0 := by
  induction l with
  | nil => intro x hx; cases hx
  | cons a t ih =>
    rw [List.sum_cons] at hs
    have hts : 0 ≤ t.sum :=
      List.sum_nonneg fun x hx => h0 x (List.mem_cons_of_mem _ hx)
    have ha : 0 ≤ a := h0 a (List.mem_cons_self _ _)
    have ha0 : a = 0 := le_antisymm (by linarith) ha
    have ht0 : t.sum = 0 := by linarith
    intro x hx
    rcases List.mem_cons.1 hx with rfl | hx2
    · exact ha0
    · exact ih (fun y hy => h0 y (List.mem_cons_of_mem _ hy)) ht0 x hx2

/-- C7: ceiling property — if a skill's weights are all positive and the
student has exactly one record with `exam_avg = 100` on each of the skill's
weighted chapters, the pipeline's row for that skill has
`normalized_score = 100` exactly. -/
theorem C7_ceiling (sdf : List StudentRow) (lt : LectureTable) (name s : String)
    (hnd : lt.skills.Nodup) (hs : s ∈ lt.skills) (hrows : lt.rows ≠ [])
    (hpos : ∀ w ∈ lt.rows, 0 < weightOf lt s w)
    (hone : ∀ w ∈ lt.rows, ∃ u, ((stuFilter sdf name).filter fun r =>
        w.lecture = r.lecture ∧ w.chapter = r.chapter) = [u] ∧
        exam_avg u = 100) :
    ∃ row ∈ compute_skill_scores sdf lt name, row.skill = s ∧
      row.normalized_score = some 100 := by
  obtain ⟨w0, hw0⟩ := List.exists_mem_of_ne_nil lt.rows hrows
  obtain ⟨u0, hu0eq, _⟩ := hone w0 hw0
  have hu0 : u0 ∈ (stuFilter sdf name).filter fun r =>
      w0.lecture = r.lecture ∧ w0.chapter = r.chapter := by
    rw [hu0eq]
    exact List.mem_cons_self _ _
  rw [List.mem_filter] at hu0
  have hmatch0 : w0.lecture = u0.lecture ∧ w0.chapter = u0.chapter := by
    simpa using hu0.2
  have hk : s ∈ sortedDedup ((mergeStudent sdf lt name).map MergedRow.skill) :=
    mem_sortedDedup.2 (mem_merged_skill.2 ⟨hs, u0, hu0.1, w0, hw0, hmatch0⟩)
  have hraw : spec_raw_score sdf lt name s = 100 * spec_weight_sum lt s := by
    rw [spec_raw_swap]
    unfold spec_weight_sum
    rw [← List.sum_map_mul_left]
    apply congrArg List.sum
    apply List.map_congr_left
    intro w hw
    obtain ⟨u, hueq, havg⟩ := hone w hw
    rw [hueq]
    simp [havg]
  have hws : 0 < spec_weight_sum lt s := by
    unfold spec_weight_sum
    apply List.sum_pos
    · intro x hx
      rcases List.mem_map.1 hx with ⟨w, hw, rfl⟩
      exact hpos w hw
    · simp only [ne_eq, List.map_eq_nil_iff]
      exact hrows
  have hwsne : spec_weight_sum lt s * 100 ≠ 0 :=
    mul_ne_zero (ne_of_gt hws) (by norm_num)
  rw [compute_eq_spec hnd]
  refine ⟨_, List.mem_map_of_mem _ hk, rfl, ?_⟩
  show (pdiv (spec_raw_score sdf lt name s)
      (spec_weight_sum lt s * 100)).map (· * 100) = some 100
  rw [hraw]
  unfold pdiv
  rw [if_neg hwsne]
  simp only [Option.map_some', Option.some_inj]
  field_simp
  ring

/-- The `demoWeights` Dart column is positive on every row. -/
theorem demo_dart_pos : ∀ w ∈ demoWeights.rows,
    0 < weightOf demoWeights "Dart" w := by
  intro w hw
  have hcase : w = (⟨1, 1, [2, 1]⟩ : WeightRow) ∨ w = ⟨1, 2, [1, 3]⟩ := by
    simpa [demoWeights] using hw
  rcases hcase with rfl | rfl <;>
    simp +decide [weightOf, demoWeights, List.indexOf, List.findIdx_cons]

/-- "Zoe" has exactly one perfect record on each `demoWeights` chapter. -/
theorem demo_zoe_perfect : ∀ w ∈ demoWeights.rows,
    ∃ u, ((stuFilter perfectRecords "Zoe").filter fun r =>
      w.lecture = r.lecture ∧ w.chapter = r.chapter) = [u] ∧
      exam_avg u = 100 := by
  intro w hw
  have hcase : w = (⟨1, 1, [2, 1]⟩ : WeightRow) ∨ w = ⟨1, 2, [1, 3]⟩ := by
    simpa [demoWeights] using hw
  rcases hcase with rfl | rfl
  · exact ⟨⟨"Zoe", 1, 1, 100, 100, 1⟩, by decide, by norm_num [exam_avg]⟩
  · exact ⟨⟨"Zoe", 1, 2, 100, 100, 1⟩, by decide, by norm_num [exam_avg]⟩

/-- Witness for C7: Zoe's perfect records against `demoWeights`, skill
"Dart". -/
theorem C7_ceiling_witness :
    demoWeights.skills.Nodup ∧ "Dart" ∈ demoWeights.skills ∧
    demoWeights.rows ≠ [] ∧
    (∀ w ∈ demoWeights.rows, 0 < weightOf demoWeights "Dart" w) ∧
    (∀ w ∈ demoWeights.rows, ∃ u,
      ((stuFilter perfectRecords "Zoe").filter fun r =>
        w.lecture = r.lecture ∧ w.chapter = r.chapter) = [u] ∧
      exam_avg u = 100) ∧
    ∃ row ∈ compute_skill_scores perfectRecords demoWeights "Zoe",
      row.skill = "Dart" ∧ row.normalized_score = some 100 :=
  ⟨by decide, by decide, by decide, demo_dart_pos, demo_zoe_perfect,
    C7_ceiling perfectRecords demoWeights "Zoe" "Dart" (by decide) (by decide)
      (by decide) demo_dart_pos demo_zoe_perfect⟩

/-- C8: a skill column whose weights sum to zero (all-zero under the
non-negative-weight data invariant) does not crash the normalization: its
`raw_score` is `0` and its `normalized_score` is the float sentinel `NaN`
(the `0.0 / 0.0` result, modelled by `none`), not an uncaught division
fault. -/
theorem C8_zero_weight_skill (sdf : List StudentRow) (lt : LectureTable)
    (name s : String) (hnd : lt.skills.Nodup) (hs : s ∈ lt.skills)
    (hmatch : ∃ r ∈ stuFilter sdf name, ∃ w ∈ lt.rows,
      w.lecture = r.lecture ∧ w.chapter = r.chapter)
    (hnonneg : ∀ w ∈ lt.rows, 0 ≤ weightOf lt s w)
    (hzero : spec_weight_sum lt s = 0) :
    ∃ row ∈ compute_skill_scores sdf lt name, row.skill = s ∧
      row.raw_score = 0 ∧ row.normalized_score = none := by
  obtain ⟨r0, hr0, w0, hw0, hm0⟩ := hmatch
  have hk : s ∈ sortedDedup ((mergeStudent sdf lt name).map MergedRow.skill) :=
    mem_sortedDedup.2 (mem_merged_skill.2 ⟨hs, r0, hr0, w0, hw0, hm0⟩)
  have hallz : ∀ w ∈ lt.rows, weightOf lt s w = 0 := by
    intro w hw
    refine all_zero_of_sum_nonneg_zero (l := lt.rows.map (weightOf lt s))
      (fun x hx => ?_) hzero _ (List.mem_map_of_mem _ hw)
    rcases List.mem_map.1 hx with ⟨w2, hw2, rfl⟩
    exact hnonneg w2 hw2
  have hraw : spec_raw_score sdf lt name s = 0 := by
    rw [spec_raw_swap]
    apply List.sum_eq_zero
    intro x hx
    rcases List.mem_map.1 hx with ⟨w, hw, rfl⟩
    apply List.sum_eq_zero
    intro y hy
    rcases List.mem_map.1 hy with ⟨r, _, rfl⟩
    rw [hallz w hw, mul_zero]
  rw [compute_eq_spec hnd]
  refine ⟨_, List.mem_map_of_mem _ hk, rfl, hraw, ?_⟩
  show (pdiv (spec_raw_score sdf lt name s)
      (spec_weight_sum lt s * 100)).map (· * 100) = none
  rw [hzero]
  simp [pdiv]

/-- The `zeroWeights` "Empty" column is non-negative on every row. -/
theorem zero_empty_nonneg : ∀ w ∈ zeroWeights.rows,
    0 ≤ weightOf zeroWeights "Empty" w := by
  intro w hw
  have hcase : w = (⟨1, 1, [2, 0]⟩ : WeightRow) ∨ w = ⟨1, 2, [1, 0]⟩ := by
    simpa [zeroWeights] using hw
  rcases hcase with rfl | rfl <;>
    simp +decide [weightOf, zeroWeights, List.indexOf, List.findIdx_cons]

/-- The `zeroWeights` "Empty" column sums to zero. -/
theorem zero_empty_sum : spec_weight_sum zeroWeights "Empty" = 0 := by
  simp +decide [spec_weight_sum, weightOf, zeroWeights, List.indexOf,
    List.findIdx_cons]

/-- Witness for C8: Alice against `zeroWeights`, skill "Empty". -/
theorem C8_zero_weight_skill_witness :
    zeroWeights.skills.Nodup ∧ "Empty" ∈ zeroWeights.skills ∧
    (∃ r ∈ stuFilter aliceRecords "Alice", ∃ w ∈ zeroWeights.rows,
      w.lecture = r.lecture ∧ w.chapter = r.chapter) ∧
    (∀ w ∈ zeroWeights.rows, 0 ≤ weightOf zeroWeights "Empty" w) ∧
    spec_weight_sum zeroWeights "Empty" = 0 ∧
    ∃ row ∈ compute_skill_scores aliceRecords zeroWeights "Alice",
      row.skill = "Empty" ∧ row.raw_score = 0 ∧
      row.normalized_score = none :=
  ⟨by decide, by decide, by decide, zero_empty_nonneg, zero_empty_sum,
    C8_zero_weight_skill aliceRecords zeroWeights "Alice" "Empty" (by decide)
      (by decide) (by decide) zero_empty_nonneg zero_empty_sum⟩
